import Mathlib

/-!
Verification of the block-coding game project against its specification.

The development shallowly embeds the project's code:
* the Convex costume/sound library `remove` mutations (src/convex/costumeLibrary.ts,
  src/convex/soundLibrary.ts);
* the scanline flood-fill of the pixel editor (src/src/utils/floodFill.ts);
* the visible-bounds computation for costumes (imageBounds, `calculateBoundsFromImageData`);
* the block code generator and scheduling runtime, whose source files are not part of
  the provided sources (only their tests are): those parts are modelled from the spec,
  as marked on each definition.

Machine integers are modelled as `Nat`/`Int`; JavaScript `number` coordinates as `ℚ`
with explicit `Rat.floor` where the code calls `Math.floor`.
-/

namespace Pocha

/-! ### Convex library `remove` mutations (src/convex/costumeLibrary.ts, soundLibrary.ts) -/

/-- A row of the `costumeLibrary` table, fields as in the `create` mutation. -/
structure CostumeRow where
  name : String
  storageId : Nat
  thumbnail : String
  bounds : Option (Int × Int × Int × Int)
  mimeType : String
  size : Nat
  createdAt : Nat
deriving DecidableEq, Repr

/-- A row of the `soundLibrary` table, fields as in the `create` mutation. -/
structure SoundRow where
  name : String
  storageId : Nat
  mimeType : String
  size : Nat
  duration : Option Int
  createdAt : Nat
deriving DecidableEq, Repr

/-- Database state visible to the costume `remove` mutation: table rows keyed by id,
plus the set of storage objects keyed by storage id. -/
structure CostumeDb where
  rows : List (Nat × CostumeRow)
  storage : List Nat
deriving DecidableEq, Repr

/-- Database state visible to the sound `remove` mutation. -/
structure SoundDb where
  rows : List (Nat × SoundRow)
  storage : List Nat
deriving DecidableEq, Repr

/-- `remove` of src/convex/costumeLibrary.ts: `ctx.db.get(id)`, and only when a row
exists, `ctx.storage.delete(item.storageId)` then `ctx.db.delete(id)`. -/
def costumeRemove (id : Nat) (s : CostumeDb) : CostumeDb :=
  match List.lookup id s.rows with
  | none => s
  | some item =>
      { rows := s.rows.filter (fun r => r.1 != id),
        storage := s.storage.filter (fun x => x != item.storageId) }

/-- `remove` of src/convex/soundLibrary.ts, same shape as the costume one. -/
def soundRemove (id : Nat) (s : SoundDb) : SoundDb :=
  match List.lookup id s.rows with
  | none => s
  | some item =>
      { rows := s.rows.filter (fun r => r.1 != id),
        storage := s.storage.filter (fun x => x != item.storageId) }

/-! ### Scanline flood fill (src/src/utils/floodFill.ts) -/

/-- An RGBA color, one byte per channel (src/src/utils/floodFill.ts `RGB`). -/
structure RGB where
  r : Nat
  g : Nat
  b : Nat
  a : Nat
deriving DecidableEq, Repr

/-- An `ImageData`: width, height, and the flat RGBA byte array. -/
structure ImageData where
  width : Nat
  height : Nat
  data : List Nat
deriving DecidableEq, Repr

/-- `colorsMatch` of floodFill.ts: all four channels within `tolerance` of `target`. -/
def colorsMatch (dat : List Nat) (pos : Nat) (target : RGB) (tol : Nat) : Bool :=
  decide (((dat.getD pos 0 : Int) - (target.r : Int)).natAbs ≤ tol) &&
  decide (((dat.getD (pos + 1) 0 : Int) - (target.g : Int)).natAbs ≤ tol) &&
  decide (((dat.getD (pos + 2) 0 : Int) - (target.b : Int)).natAbs ≤ tol) &&
  decide (((dat.getD (pos + 3) 0 : Int) - (target.a : Int)).natAbs ≤ tol)

/-- `setPixel` of floodFill.ts: write the four channel bytes at `pos`. -/
def setPixel (dat : List Nat) (pos : Nat) (fill : RGB) : List Nat :=
  (((dat.set pos fill.r).set (pos + 1) fill.g).set (pos + 2) fill.b).set (pos + 3) fill.a

/-- `getPixel` of floodFill.ts: read the four channel bytes at `pos`. -/
def getPixel (dat : List Nat) (pos : Nat) : RGB :=
  ⟨dat.getD pos 0, dat.getD (pos + 1) 0, dat.getD (pos + 2) 0, dat.getD (pos + 3) 0⟩

/-- `colorsEqual` of floodFill.ts: exact equality on all four channels. -/
def colorsEqual (c d : RGB) : Bool :=
  (c.r == d.r) && (c.g == d.g) && (c.b == d.b) && (c.a == d.a)

/-- The `while (leftX > 0)` scan of floodFill.ts: step left while the pixel to the
left matches the target color. -/
def findLeft (dat : List Nat) (w yn : Nat) (target : RGB) (tol : Nat) : Nat → Nat
  | 0 => 0
  | lx + 1 =>
      if colorsMatch dat ((yn * w + lx) * 4) target tol then
        findLeft dat w yn target tol lx
      else lx + 1

/-- The `while (rightX < width - 1)` scan of floodFill.ts, with fuel bounded by the
image width (the scan moves right at most `w` times). -/
def findRight (dat : List Nat) (w yn : Nat) (target : RGB) (tol : Nat) : Nat → Nat → Nat
  | 0, x => x
  | k + 1, x =>
      if x + 1 < w ∧ colorsMatch dat ((yn * w + (x + 1)) * 4) target tol = true then
        findRight dat w yn target tol k (x + 1)
      else x

/-- The `for (let fillX = leftX; fillX <= rightX; fillX++)` body of floodFill.ts:
mark visited, write the fill color, and push unvisited matching neighbours above and
below onto the stack.  State is `(data, visited, stack)`; the stack top is the head. -/
def fillRow (w h yn : Nat) (target fill : RGB) (tol : Nat) :
    List Nat → List Nat × List Nat × List (Int × Int) → List Nat × List Nat × List (Int × Int)
  | [], st => st
  | fx :: xs, (dat, vis, stk) =>
      let pos := (yn * w + fx) * 4
      if pos ∈ vis then fillRow w h yn target fill tol xs (dat, vis, stk)
      else
        let vis' := pos :: vis
        let dat' := setPixel dat pos fill
        let stk1 :=
          if 0 < yn ∧ ((yn - 1) * w + fx) * 4 ∉ vis' ∧
              colorsMatch dat' (((yn - 1) * w + fx) * 4) target tol = true then
            ((fx : Int), (yn : Int) - 1) :: stk
          else stk
        let stk2 :=
          if yn < h - 1 ∧ ((yn + 1) * w + fx) * 4 ∉ vis' ∧
              colorsMatch dat' (((yn + 1) * w + fx) * 4) target tol = true then
            ((fx : Int), (yn : Int) + 1) :: stk1
          else stk1
        fillRow w h yn target fill tol xs (dat', vis', stk2)

/-- The `while (stack.length > 0)` loop of floodFill.ts, fuelled.  Each iteration pops
a coordinate, applies the bounds / visited / color-match guards of the source, and
otherwise fills the scanline found by `findLeft`/`findRight`. -/
def ffLoop (w h : Nat) (target fill : RGB) (tol : Nat) :
    Nat → List Nat → List Nat → List (Int × Int) → List Nat × List Nat
  | 0, dat, vis, _ => (dat, vis)
  | fuel + 1, dat, vis, stk =>
      match stk with
      | [] => (dat, vis)
      | (x, y) :: rest =>
          if x < 0 ∨ (w : Int) ≤ x ∨ y < 0 ∨ (h : Int) ≤ y then
            ffLoop w h target fill tol fuel dat vis rest
          else
            let pos := (y.toNat * w + x.toNat) * 4
            if pos ∈ vis then ffLoop w h target fill tol fuel dat vis rest
            else if colorsMatch dat pos target tol = false then
              ffLoop w h target fill tol fuel dat vis rest
            else
              let lx := findLeft dat w y.toNat target tol x.toNat
              let rx := findRight dat w y.toNat target tol w x.toNat
              let r := fillRow w h y.toNat target fill tol
                (List.range' lx (rx + 1 - lx)) (dat, vis, rest)
              ffLoop w h target fill tol fuel r.1 r.2.1 r.2.2

/-- `floodFill` of floodFill.ts.  Start coordinates are JavaScript numbers, modelled
as rationals and floored as in the source.  The loop fuel is chosen large enough for
every run: each iteration either shrinks the stack or marks a fresh position visited,
and at most `2w + 2` coordinates are pushed per iteration. -/
def floodFill (img : ImageData) (startX startY : ℚ) (fill : RGB) (tol : Nat) : ImageData :=
  if Rat.floor startX < 0 ∨ (img.width : Int) ≤ Rat.floor startX ∨
      Rat.floor startY < 0 ∨ (img.height : Int) ≤ Rat.floor startY then img
  else if colorsEqual
      (getPixel img.data
        (((Rat.floor startY).toNat * img.width + (Rat.floor startX).toNat) * 4)) fill then img
  else
    { img with
      data :=
        (ffLoop img.width img.height
          (getPixel img.data
            (((Rat.floor startY).toNat * img.width + (Rat.floor startX).toNat) * 4))
          fill tol
          ((img.width * img.height + 1) * (2 * img.width + 2) + 1)
          img.data [] [(Rat.floor startX, Rat.floor startY)]).1 }

/-! ### Visible-bounds computation (`calculateBoundsFromImageData`) -/

/-- A `CostumeBounds` rectangle as returned by `calculateBoundsFromImageData`. -/
structure CostumeBounds where
  x : Int
  y : Int
  width : Int
  height : Int
deriving DecidableEq, Repr

/-- The alpha byte of pixel `(x, y)`: `data[(y * width + x) * 4 + 3]`. -/
def alphaAt (img : ImageData) (x y : Nat) : Nat :=
  img.data.getD ((y * img.width + x) * 4 + 3) 0

/-- The four scan variables `minX, minY, maxX, maxY` of the source loop. -/
structure ScanSt where
  minX : Int
  minY : Int
  maxX : Int
  maxY : Int
deriving DecidableEq, Repr

/-- One pixel step of the scan loop: when `alpha > alphaThreshold`, shrink `minX`/`minY`
and grow `maxX`/`maxY` towards the pixel. -/
def boundsUpd (t : Nat) (img : ImageData) (st : ScanSt) (c : Nat × Nat) : ScanSt :=
  if t < alphaAt img c.1 c.2 then
    ⟨min st.minX (c.1 : Int), min st.minY (c.2 : Int),
     max st.maxX (c.1 : Int), max st.maxY (c.2 : Int)⟩
  else st

/-- The row-major pixel traversal order of the nested `for` loops (`y` outer, `x` inner). -/
def gridCoords (img : ImageData) : List (Nat × Nat) :=
  (List.range img.height).flatMap (fun y => (List.range img.width).map (fun x => (x, y)))

/-- The whole scan of `calculateBoundsFromImageData`, starting from
`minX = width, minY = height, maxX = -1, maxY = -1`. -/
def boundsScan (img : ImageData) (t : Nat) : ScanSt :=
  (gridCoords img).foldl (boundsUpd t img) ⟨(img.width : Int), (img.height : Int), -1, -1⟩

/-- `calculateBoundsFromImageData` (imageBounds utility): scan all pixels; return `null`
when `maxX < 0 || maxY < 0`, else the rectangle spanned by the extremes. -/
def calculateBoundsFromImageData (img : ImageData) (t : Nat) : Option CostumeBounds :=
  if (boundsScan img t).maxX < 0 ∨ (boundsScan img t).maxY < 0 then none
  else some ⟨(boundsScan img t).minX, (boundsScan img t).minY,
    (boundsScan img t).maxX - (boundsScan img t).minX + 1,
    (boundsScan img t).maxY - (boundsScan img t).minY + 1⟩

/-- Conditional running minimum over a coordinate list. -/
def cminFold (P : Nat × Nat → Prop) [DecidablePred P] (key : Nat × Nat → Int)
    (l : List (Nat × Nat)) (m : Int) : Int :=
  l.foldl (fun acc c => if P c then min acc (key c) else acc) m

/-- Conditional running maximum over a coordinate list. -/
def cmaxFold (P : Nat × Nat → Prop) [DecidablePred P] (key : Nat × Nat → Int)
    (l : List (Nat × Nat)) (m : Int) : Int :=
  l.foldl (fun acc c => if P c then max acc (key c) else acc) m

/-! ### Code generator and runtime, modelled from the spec

The repository sources do not include src/phaser/CodeGenerator.ts or the runtime
engine; only the generator's test script (embedded in src/convex/costumeLibrary.ts)
and the spec describe them.  The definitions below are therefore modelled from the
spec (§3 data model, §4.1 code generator, §4.2 runtime engine, §4.3 variable store),
with the generated-code shapes anchored to the strings asserted by the test script. -/

/-- Modelled from the spec: value-slot expression blocks — numeric literals
(`math_number`) and variable reporters. -/
inductive SExpr where
  | num (n : Int)
  | varRef (nm : String)
deriving DecidableEq, Repr

/-- Modelled from the spec: a statement-block chain; each node carries its `next`
pointer as in the §3 Block Node data model, `nilB` ending a chain. -/
inductive SBlock where
  | nilB
  | setX (e : SExpr) (next : SBlock)
  | setY (e : SExpr) (next : SBlock)
  | changeX (e : SExpr) (next : SBlock)
  | changeY (e : SExpr) (next : SBlock)
  | goTo (ex ey : SExpr) (next : SBlock)
  | showB (next : SBlock)
  | hideB (next : SBlock)
  | enablePhysics (next : SBlock)
  | setVelocity (evx evy : SExpr) (next : SBlock)
  | moveSteps (e : SExpr) (next : SBlock)
  | repeatB (times : SExpr) (body : SBlock) (next : SBlock)
deriving DecidableEq, Repr

/-- Modelled from the spec (missing CodeGenerator.ts): textual emission of a value
expression; negative numeric literals are wrapped in parentheses so they cannot be
misparsed as a subtraction operator when inlined. -/
def emitExpr : SExpr → String
  | .num n => if n < 0 then "(" ++ toString n ++ ")" else toString n
  | .varRef nm => nm

/-- Modelled from the spec (missing CodeGenerator.ts): one generated sprite-command
line per statement block, in the shapes asserted by the test script. -/
def emitB : SBlock → List String
  | .nilB => []
  | .setX e next => ("sprite.setX(" ++ emitExpr e ++ ")") :: emitB next
  | .setY e next => ("sprite.setY(" ++ emitExpr e ++ ")") :: emitB next
  | .changeX e next => ("sprite.changeX(" ++ emitExpr e ++ ")") :: emitB next
  | .changeY e next => ("sprite.changeY(" ++ emitExpr e ++ ")") :: emitB next
  | .goTo ex ey next =>
      ("sprite.goTo(" ++ emitExpr ex ++ ", " ++ emitExpr ey ++ ")") :: emitB next
  | .showB next => "sprite.show()" :: emitB next
  | .hideB next => "sprite.hide()" :: emitB next
  | .enablePhysics next => "sprite.enablePhysics()" :: emitB next
  | .setVelocity evx evy next =>
      ("sprite.setVelocity(" ++ emitExpr evx ++ ", " ++ emitExpr evy ++ ")") :: emitB next
  | .moveSteps e next => ("sprite.moveSteps(" ++ emitExpr e ++ ")") :: emitB next
  | .repeatB times body next =>
      ("for (let i = 0; i < " ++ emitExpr times ++ "; i++)") :: (emitB body ++ emitB next)

/-- Modelled from the spec: a compiled handler procedure — a chain of sprite-command
calls and counted loops whose count expression is evaluated once at loop entry. -/
inductive CProc where
  | done
  | ccall (nm : String) (args : List SExpr) (next : CProc)
  | cfor (times : SExpr) (body : CProc) (next : CProc)
deriving DecidableEq, Repr

/-- Modelled from the spec (missing CodeGenerator.ts): the generator maps each
statement block to the corresponding sprite command or control-flow shape,
depth-first, preserving `next` order. -/
def compileB : SBlock → CProc
  | .nilB => .done
  | .setX e next => .ccall "sprite.setX" [e] (compileB next)
  | .setY e next => .ccall "sprite.setY" [e] (compileB next)
  | .changeX e next => .ccall "sprite.changeX" [e] (compileB next)
  | .changeY e next => .ccall "sprite.changeY" [e] (compileB next)
  | .goTo ex ey next => .ccall "sprite.goTo" [ex, ey] (compileB next)
  | .showB next => .ccall "sprite.show" [] (compileB next)
  | .hideB next => .ccall "sprite.hide" [] (compileB next)
  | .enablePhysics next => .ccall "sprite.enablePhysics" [] (compileB next)
  | .setVelocity evx evy next => .ccall "sprite.setVelocity" [evx, evy] (compileB next)
  | .moveSteps e next => .ccall "sprite.moveSteps" [e] (compileB next)
  | .repeatB times body next => .cfor times (compileB body) (compileB next)

/-- Modelled from the spec: the per-object Execution Context state the sprite
commands act on (transform, velocity, visibility, physics flag). -/
structure ObjState where
  x : Int
  y : Int
  vx : Int
  vy : Int
  visible : Bool
  physicsOn : Bool
deriving DecidableEq, Repr

/-- Runtime trace events: expression evaluations and executed sprite commands. -/
inductive Ev where
  | evalNum (n : Int)
  | evalVar (nm : String) (v : Int)
  | cmd (nm : String) (args : List Int)
deriving DecidableEq, Repr

/-- Variable lookup in a flat environment (0 when undefined). -/
def lookupVar (ρ : List (String × Int)) (nm : String) : Int :=
  match List.lookup nm ρ with
  | some v => v
  | none => 0

/-- Modelled from the spec: evaluating a value expression, logging the evaluation. -/
def evalExpr (ρ : List (String × Int)) : SExpr → Int × List Ev
  | .num n => (n, [Ev.evalNum n])
  | .varRef nm => (lookupVar ρ nm, [Ev.evalVar nm (lookupVar ρ nm)])

/-- Evaluate an argument list left to right. -/
def evalArgs (ρ : List (String × Int)) : List SExpr → List Int × List Ev
  | [] => ([], [])
  | e :: es =>
      let r := evalExpr ρ e
      let rs := evalArgs ρ es
      (r.1 :: rs.1, r.2 ++ rs.2)

/-- Modelled from the spec: the sprite-command surface applied to the object state. -/
def applyCmd (nm : String) (args : List Int) (st : ObjState) : ObjState :=
  match nm, args with
  | "sprite.setX", [v] => { st with x := v }
  | "sprite.setY", [v] => { st with y := v }
  | "sprite.changeX", [v] => { st with x := st.x + v }
  | "sprite.changeY", [v] => { st with y := st.y + v }
  | "sprite.goTo", [a, b] => { st with x := a, y := b }
  | "sprite.show", [] => { st with visible := true }
  | "sprite.hide", [] => { st with visible := false }
  | "sprite.enablePhysics", [] => { st with physicsOn := true }
  | "sprite.setVelocity", [a, b] => { st with vx := a, vy := b }
  | "sprite.moveSteps", [v] => { st with x := st.x + v }
  | _, _ => st

mutual

/-- Modelled from the spec: running a compiled procedure over the object state,
producing the final state and the event trace.  A counted loop evaluates its count
once at entry and runs the body `max(N,0)` times (`Int.toNat`). -/
def runP (ρ : List (String × Int)) : CProc → ObjState → ObjState × List Ev
  | .done, st => (st, [])
  | .ccall nm args next, st =>
      let a := evalArgs ρ args
      let r := runP ρ next (applyCmd nm a.1 st)
      (r.1, a.2 ++ Ev.cmd nm a.1 :: r.2)
  | .cfor times body next, st =>
      let n := evalExpr ρ times
      let it := runIter ρ body n.1.toNat st
      let r := runP ρ next it.1
      (r.1, n.2 ++ it.2 ++ r.2)
termination_by p _ => (sizeOf p, 0)

/-- Modelled from the spec: `k`-fold execution of a loop body. -/
def runIter (ρ : List (String × Int)) (body : CProc) : Nat → ObjState → ObjState × List Ev
  | 0, st => (st, [])
  | k + 1, st =>
      let r := runP ρ body st
      let rs := runIter ρ body k r.1
      (rs.1, r.2 ++ rs.2)
termination_by k _ => (sizeOf body, k + 1)

end

/-- Modelled from the spec: the event kinds of top-level blocks used by the claims. -/
inductive EvKind where
  | gameStart
  | keyPressed (key : String)
deriving DecidableEq, Repr

/-- Modelled from the spec: a Compiled Handler — event kind plus compiled procedure. -/
structure Handler where
  ev : EvKind
  proc : CProc
deriving DecidableEq, Repr

/-- Engine trace: game-start dispatch markers, tick boundaries, interpreter events. -/
inductive EEv where
  | gsDispatch
  | tickBegin
  | e (ev : Ev)
deriving DecidableEq, Repr

/-- Modelled from the spec: at scene load, game-start handlers run exactly once, in
registration order, before any tick. -/
def loadEngine (hs : List Handler) (ρ : List (String × Int)) (st : ObjState) :
    ObjState × List EEv :=
  match hs with
  | [] => (st, [])
  | h :: rest =>
      match h.ev with
      | .gameStart =>
          let r := runP ρ h.proc st
          let rr := loadEngine rest ρ r.1
          (rr.1, EEv.gsDispatch :: (r.2.map EEv.e ++ rr.2))
      | _ => loadEngine rest ρ st

/-- Modelled from the spec: one engine tick delivers key-pressed events for keys down
now but not down on the previous frame, to matching handlers in registration order. -/
def tickEngine (hs : List Handler) (ρ : List (String × Int)) (prev now : List String)
    (st : ObjState) : ObjState × List Ev :=
  match hs with
  | [] => (st, [])
  | h :: rest =>
      match h.ev with
      | .keyPressed k =>
          if k ∈ now ∧ k ∉ prev then
            let r := runP ρ h.proc st
            let rr := tickEngine rest ρ prev now r.1
            (rr.1, r.2 ++ rr.2)
          else tickEngine rest ρ prev now st
      | _ => tickEngine rest ρ prev now st

/-- Modelled from the spec: run a sequence of ticks, threading the previous-frame
key set, collecting the per-tick traces. -/
def runTicks (hs : List Handler) (ρ : List (String × Int)) :
    List (List String) → List String → ObjState → ObjState × List (List Ev)
  | [], _, st => (st, [])
  | now :: ks, prev, st =>
      let r := tickEngine hs ρ prev now st
      let rr := runTicks hs ρ ks now r.1
      (rr.1, r.2 :: rr.2)

/-- Modelled from the spec: a full engine run — load once, then the ticks, the
previous-key set initially empty. -/
def runEngine (hs : List Handler) (ρ : List (String × Int)) (ks : List (List String))
    (st : ObjState) : ObjState × List EEv :=
  let l := loadEngine hs ρ st
  let r := runTicks hs ρ ks [] l.1
  (r.1, l.2 ++ (r.2.map (fun tr => EEv.tickBegin :: tr.map EEv.e)).flatten)

/-- The game-start statement chain of the C3 end-to-end program:
go-to(100,100) → show → enable-physics. -/
def c3Block : SBlock :=
  .goTo (.num 100) (.num 100) (.showB (.enablePhysics .nilB))

/-- The compiled handler set of the C3 program: one game-start handler. -/
def c3Handlers : List Handler := [⟨.gameStart, compileB c3Block⟩]

/-- The compiled handler set of the C4 program: one SPACE key-pressed handler
containing set-x(100). -/
def c4Handlers : List Handler := [⟨.keyPressed "SPACE", compileB (.setX (.num 100) .nilB)⟩]

/-- The claim-side per-tick firing traces of the C4 program: the handler body's
events appear in a tick exactly when SPACE is down now but was not down before. -/
def c4Traces : List (List String) → List String → List (List Ev)
  | [], _ => []
  | now :: ks, prev =>
      (if "SPACE" ∈ now ∧ "SPACE" ∉ prev then
        [Ev.evalNum 100, Ev.cmd "sprite.setX" [100]]
      else []) :: c4Traces ks now

/-- Whether any frame of the run has SPACE newly pressed. -/
def c4Fires : List (List String) → List String → Bool
  | [], _ => false
  | now :: ks, prev =>
      (decide ("SPACE" ∈ now) && !(decide ("SPACE" ∈ prev))) || c4Fires ks now

/-! ### Broadcast scheduler, modelled from the spec (§4.2, §5) -/

/-- Modelled from the spec: the statements a broadcast-test procedure may run —
an observable action, fire-and-forget broadcast, and broadcast-and-wait. -/
inductive BStmt where
  | act (tag : String)
  | bcast (ch : String)
  | bcastWait (ch : String)
deriving DecidableEq, Repr

/-- Modelled from the spec: a receive-broadcast handler — its channel and body. -/
structure BHandler where
  ch : String
  body : List BStmt
deriving DecidableEq, Repr

/-- Modelled from the spec: coroutine statuses (`Ready`, `Suspended` on a broadcast
batch, `Completed`). -/
inductive CoSt where
  | ready
  | waitingOn (batch : List Nat)
  | completedC
deriving DecidableEq, Repr

/-- A live coroutine: its id, remaining statements, and status. -/
structure Co where
  cid : Nat
  rest : List BStmt
  st : CoSt
deriving DecidableEq, Repr

/-- Modelled from the spec: scheduler state — registered handlers, live coroutines,
the fresh-id counter, and the observable action log. -/
structure Sched where
  handlers : List BHandler
  cos : List Co
  nextId : Nat
  log : List (Nat × String)
deriving DecidableEq, Repr

/-- The batch a status is waiting on (empty for non-suspended statuses). -/
def batchOf : CoSt → List Nat
  | CoSt.waitingOn b => b
  | _ => []

/-- Modelled from the spec: `broadcast(channel)` spawns one fresh ready coroutine per
handler currently registered for the channel, in registration order, and returns the
fresh ids (the snapshot). -/
def doBroadcast (s : Sched) (ch : String) : Sched × List Nat :=
  let bodies := (s.handlers.filter (fun h => h.ch == ch)).map BHandler.body
  let ids := List.range' s.nextId bodies.length
  ({ s with
      cos := s.cos ++ (ids.zip bodies).map (fun p => ⟨p.1, p.2, CoSt.ready⟩),
      nextId := s.nextId + bodies.length }, ids)

/-- Modelled from the spec: run a coroutine's statements until it completes or
suspends on a broadcast-and-wait; returns the scheduler, the final status, and the
remaining statements. -/
def runStmts (cid : Nat) : List BStmt → Sched → Sched × CoSt × List BStmt
  | [], s => (s, CoSt.completedC, [])
  | BStmt.act tag :: rest, s => runStmts cid rest { s with log := s.log ++ [(cid, tag)] }
  | BStmt.bcast ch :: rest, s => runStmts cid rest (doBroadcast s ch).1
  | BStmt.bcastWait ch :: rest, s =>
      ((doBroadcast s ch).1, CoSt.waitingOn (doBroadcast s ch).2, rest)

/-- Replace the status and remaining statements of the coroutine with id `j`. -/
def setCo (cos : List Co) (j : Nat) (st' : CoSt) (rest' : List BStmt) : List Co :=
  cos.map (fun c => if c.cid == j then ⟨c.cid, rest', st'⟩ else c)

/-- Modelled from the spec: dispatch one ready coroutine by id — run it to its next
suspension point or completion and record the outcome. -/
def runCo (s : Sched) (j : Nat) : Sched :=
  match s.cos.find? (fun c => c.cid == j) with
  | none => s
  | some c =>
      if c.st == CoSt.ready then
        let r := runStmts j c.rest s
        { r.1 with cos := setCo r.1.cos j r.2.1 r.2.2 }
      else s

/-- Whether the coroutine with id `i` has completed (a destroyed target counts as
completed, per the spec's cancellation tolerance). -/
def completedIn (s : Sched) (i : Nat) : Bool :=
  match s.cos.find? (fun c => c.cid == i) with
  | some c => c.st == CoSt.completedC
  | none => true

/-- Modelled from the spec: the once-per-tick resume check — a coroutine suspended on
a batch becomes ready exactly when every batch member has completed. -/
def wake (s : Sched) : Sched :=
  { s with
    cos := s.cos.map (fun c =>
      match c.st with
      | CoSt.waitingOn b => if b.all (completedIn s) then { c with st := CoSt.ready } else c
      | _ => c) }

/-- Modelled from the spec: one scheduler tick — resume checks first, then run the
coroutines that were ready at the start of the tick, in order; coroutines spawned
during the tick begin on the next dispatch opportunity. -/
def tick (s : Sched) : Sched :=
  ((((wake s).cos.filter (fun c => c.st == CoSt.ready)).map Co.cid).foldl runCo (wake s))

/-- Scheduler well-formedness: live ids are below the fresh-id counter and pairwise
distinct, and every suspension batch mentions only ids below the counter. -/
def wfS (s : Sched) : Prop :=
  (∀ c ∈ s.cos, c.cid < s.nextId) ∧
  (s.cos.map Co.cid).Nodup ∧
  (∀ c ∈ s.cos, ∀ i ∈ batchOf c.st, i < s.nextId)

instance (s : Sched) : Decidable (wfS s) := by
  unfold wfS
  infer_instance

/-- The coroutines spawned by one broadcast: fresh consecutive ids zipped with the
bodies of the handlers matching the channel, all ready. -/
def spawnedCos (s : Sched) (ch : String) : List Co :=
  ((List.range' s.nextId ((s.handlers.filter (fun h => h.ch == ch)).map BHandler.body).length).zip
    ((s.handlers.filter (fun h => h.ch == ch)).map BHandler.body)).map
    (fun p => ⟨p.1, p.2, CoSt.ready⟩)

/-! ### Variable store and clone scopes, modelled from the spec (§3, §4.2, §4.3) -/

/-- Modelled from the spec: the three-tier variable world — object-type local
defaults, the global scope, and per-context instance scopes keyed by object id. -/
structure VWorld where
  typeDefaults : List (String × Int)
  globalScope : List (String × Int)
  ctxs : List (Nat × List (String × Int))
deriving DecidableEq, Repr

/-- Update the first binding of `nm` in an association list, when present. -/
def updA : List (String × Int) → String → Int → List (String × Int)
  | [], _, _ => []
  | (k, v) :: rest, nm, x =>
      if k = nm then (k, x) :: rest else (k, v) :: updA rest nm x

/-- Modelled from the spec: spawning a clone creates a new context whose instance
scope copies the origin's instance-variable values at that instant. -/
def spawnClone (w : VWorld) (originId cid : Nat) : VWorld :=
  match List.lookup originId w.ctxs with
  | none => w
  | some vars => { w with ctxs := w.ctxs ++ [(cid, vars)] }

/-- Modelled from the spec: a write targets the most specific scope that already
defines the name — instance, then object-type local, then global — or the global
scope when undefined anywhere. -/
def writeVar (w : VWorld) (id : Nat) (nm : String) (v : Int) : VWorld :=
  match List.lookup id w.ctxs with
  | some vars =>
      if (List.lookup nm vars).isSome then
        { w with ctxs := w.ctxs.map (fun c => if c.1 = id then (c.1, updA c.2 nm v) else c) }
      else if (List.lookup nm w.typeDefaults).isSome then
        { w with typeDefaults := updA w.typeDefaults nm v }
      else { w with globalScope := updA w.globalScope nm v }
  | none => w

/-- Modelled from the spec: a read resolves instance → object-type local → global,
returning the first scope that defines the name. -/
def readVar (w : VWorld) (id : Nat) (nm : String) : Option Int :=
  match List.lookup id w.ctxs with
  | some vars =>
      match List.lookup nm vars with
      | some v => some v
      | none =>
          match List.lookup nm w.typeDefaults with
          | some v => some v
          | none => List.lookup nm w.globalScope
  | none => none

lemma cminFold_le (P : Nat × Nat → Prop) [DecidablePred P] (key : Nat × Nat → Int)
    (l : List (Nat × Nat)) : ∀ m, cminFold P key l m ≤ m := by
  induction l with
  | nil => intro m; exact le_refl m
  | cons c l ih =>
      intro m
      simp only [cminFold, List.foldl_cons] at *
      by_cases h : P c
      · rw [if_pos h]; exact le_trans (ih _) (min_le_left _ _)
      · rw [if_neg h]; exact ih m

lemma cmaxFold_ge (P : Nat × Nat → Prop) [DecidablePred P] (key : Nat × Nat → Int)
    (l : List (Nat × Nat)) : ∀ m, m ≤ cmaxFold P key l m := by
  induction l with
  | nil => intro m; exact le_refl m
  | cons c l ih =>
      intro m
      simp only [cmaxFold, List.foldl_cons] at *
      by_cases h : P c
      · rw [if_pos h]; exact le_trans (le_max_left _ _) (ih _)
      · rw [if_neg h]; exact ih m

lemma cminFold_le_key (P : Nat × Nat → Prop) [DecidablePred P] (key : Nat × Nat → Int)
    (l : List (Nat × Nat)) (c : Nat × Nat) (hc : c ∈ l) (hP : P c) :
    ∀ m, cminFold P key l m ≤ key c := by
  induction l with
  | nil => cases hc
  | cons d l ih =>
      intro m
      simp only [cminFold, List.foldl_cons] at *
      rcases List.mem_cons.mp hc with h | h
      · subst h
        rw [if_pos hP]
        exact le_trans (cminFold_le P key l _) (min_le_right _ _)
      · exact ih h _

lemma cmaxFold_key_le (P : Nat × Nat → Prop) [DecidablePred P] (key : Nat × Nat → Int)
    (l : List (Nat × Nat)) (c : Nat × Nat) (hc : c ∈ l) (hP : P c) :
    ∀ m, key c ≤ cmaxFold P key l m := by
  induction l with
  | nil => cases hc
  | cons d l ih =>
      intro m
      simp only [cmaxFold, List.foldl_cons] at *
      rcases List.mem_cons.mp hc with h | h
      · subst h
        rw [if_pos hP]
        exact le_trans (le_max_right _ _) (cmaxFold_ge P key l _)
      · exact ih h _

lemma cminFold_attain (P : Nat × Nat → Prop) [DecidablePred P] (key : Nat × Nat → Int)
    (l : List (Nat × Nat)) :
    ∀ m, cminFold P key l m = m ∨ ∃ c ∈ l, P c ∧ key c = cminFold P key l m := by
  induction l with
  | nil => intro m; exact Or.inl rfl
  | cons d l ih =>
      intro m
      simp only [cminFold, List.foldl_cons] at *
      by_cases h : P d
      · rw [if_pos h]
        rcases ih (min m (key d)) with h1 | h1
        · rcases min_cases m (key d) with ⟨he, _⟩ | ⟨he, _⟩
          · exact Or.inl (h1.trans he)
          · exact Or.inr ⟨d, List.mem_cons_self d l, h, (he.symm.trans h1.symm)⟩
        · rcases h1 with ⟨c, hcl, hPc, hkey⟩
          exact Or.inr ⟨c, List.mem_cons_of_mem d hcl, hPc, hkey⟩
      · rw [if_neg h]
        rcases ih m with h1 | h1
        · exact Or.inl h1
        · rcases h1 with ⟨c, hcl, hPc, hkey⟩
          exact Or.inr ⟨c, List.mem_cons_of_mem d hcl, hPc, hkey⟩

lemma cmaxFold_attain (P : Nat × Nat → Prop) [DecidablePred P] (key : Nat × Nat → Int)
    (l : List (Nat × Nat)) :
    ∀ m, cmaxFold P key l m = m ∨ ∃ c ∈ l, P c ∧ key c = cmaxFold P key l m := by
  induction l with
  | nil => intro m; exact Or.inl rfl
  | cons d l ih =>
      intro m
      simp only [cmaxFold, List.foldl_cons] at *
      by_cases h : P d
      · rw [if_pos h]
        rcases ih (max m (key d)) with h1 | h1
        · rcases max_cases m (key d) with ⟨he, _⟩ | ⟨he, _⟩
          · exact Or.inl (h1.trans he)
          · exact Or.inr ⟨d, List.mem_cons_self d l, h, (he.symm.trans h1.symm)⟩
        · rcases h1 with ⟨c, hcl, hPc, hkey⟩
          exact Or.inr ⟨c, List.mem_cons_of_mem d hcl, hPc, hkey⟩
      · rw [if_neg h]
        rcases ih m with h1 | h1
        · exact Or.inl h1
        · rcases h1 with ⟨c, hcl, hPc, hkey⟩
          exact Or.inr ⟨c, List.mem_cons_of_mem d hcl, hPc, hkey⟩

lemma cminFold_of_not (P : Nat × Nat → Prop) [DecidablePred P] (key : Nat × Nat → Int)
    (l : List (Nat × Nat)) (h : ∀ c ∈ l, ¬ P c) : ∀ m, cminFold P key l m = m := by
  induction l with
  | nil => intro m; rfl
  | cons d l ih =>
      intro m
      simp only [cminFold, List.foldl_cons]
      rw [if_neg (h d (List.mem_cons_self d l))]
      exact ih (fun c hc => h c (List.mem_cons_of_mem d hc)) m

lemma cmaxFold_of_not (P : Nat × Nat → Prop) [DecidablePred P] (key : Nat × Nat → Int)
    (l : List (Nat × Nat)) (h : ∀ c ∈ l, ¬ P c) : ∀ m, cmaxFold P key l m = m := by
  induction l with
  | nil => intro m; rfl
  | cons d l ih =>
      intro m
      simp only [cmaxFold, List.foldl_cons]
      rw [if_neg (h d (List.mem_cons_self d l))]
      exact ih (fun c hc => h c (List.mem_cons_of_mem d hc)) m

/-- Projection: the `minX` component of the scan is a conditional minimum fold. -/
lemma scan_minX (t : Nat) (img : ImageData) (l : List (Nat × Nat)) :
    ∀ st : ScanSt, (l.foldl (boundsUpd t img) st).minX =
      cminFold (fun c => t < alphaAt img c.1 c.2) (fun c => (c.1 : Int)) l st.minX := by
  induction l with
  | nil => intro st; rfl
  | cons c l ih =>
      intro st
      simp only [List.foldl_cons, cminFold] at *
      rw [ih]
      by_cases h : t < alphaAt img c.1 c.2
      · simp only [boundsUpd, if_pos h]
      · simp only [boundsUpd, if_neg h]

/-- Projection: the `minY` component of the scan is a conditional minimum fold. -/
lemma scan_minY (t : Nat) (img : ImageData) (l : List (Nat × Nat)) :
    ∀ st : ScanSt, (l.foldl (boundsUpd t img) st).minY =
      cminFold (fun c => t < alphaAt img c.1 c.2) (fun c => (c.2 : Int)) l st.minY := by
  induction l with
  | nil => intro st; rfl
  | cons c l ih =>
      intro st
      simp only [List.foldl_cons, cminFold] at *
      rw [ih]
      by_cases h : t < alphaAt img c.1 c.2
      · simp only [boundsUpd, if_pos h]
      · simp only [boundsUpd, if_neg h]

/-- Projection: the `maxX` component of the scan is a conditional maximum fold. -/
lemma scan_maxX (t : Nat) (img : ImageData) (l : List (Nat × Nat)) :
    ∀ st : ScanSt, (l.foldl (boundsUpd t img) st).maxX =
      cmaxFold (fun c => t < alphaAt img c.1 c.2) (fun c => (c.1 : Int)) l st.maxX := by
  induction l with
  | nil => intro st; rfl
  | cons c l ih =>
      intro st
      simp only [List.foldl_cons, cmaxFold] at *
      rw [ih]
      by_cases h : t < alphaAt img c.1 c.2
      · simp only [boundsUpd, if_pos h]
      · simp only [boundsUpd, if_neg h]

/-- Projection: the `maxY` component of the scan is a conditional maximum fold. -/
lemma scan_maxY (t : Nat) (img : ImageData) (l : List (Nat × Nat)) :
    ∀ st : ScanSt, (l.foldl (boundsUpd t img) st).maxY =
      cmaxFold (fun c => t < alphaAt img c.1 c.2) (fun c => (c.2 : Int)) l st.maxY := by
  induction l with
  | nil => intro st; rfl
  | cons c l ih =>
      intro st
      simp only [List.foldl_cons, cmaxFold] at *
      rw [ih]
      by_cases h : t < alphaAt img c.1 c.2
      · simp only [boundsUpd, if_pos h]
      · simp only [boundsUpd, if_neg h]

lemma mem_gridCoords (img : ImageData) (x y : Nat) :
    (x, y) ∈ gridCoords img ↔ x < img.width ∧ y < img.height := by
  simp only [gridCoords, List.mem_flatMap, List.mem_map, List.mem_range, Prod.mk.injEq]
  constructor
  · rintro ⟨b, hb, a, ha, hax, hby⟩
    exact ⟨hax ▸ ha, hby ▸ hb⟩
  · rintro ⟨hx, hy⟩
    exact ⟨y, hy, x, hx, rfl, rfl⟩

/-! ### Theorems: C10 and C8 -/

/-- C10: for every id, the `remove` mutation of the costume library and of the sound
library is a no-op when no row with that id exists: no storage object and no database
row is deleted (and the handler is total, so no error is raised). -/
theorem remove_missing_id_noop :
    (∀ (s : CostumeDb) (id : Nat), List.lookup id s.rows = none → costumeRemove id s = s) ∧
    (∀ (s : SoundDb) (id : Nat), List.lookup id s.rows = none → soundRemove id s = s) := by
  constructor
  · intro s id h
    simp [costumeRemove, h]
  · intro s id h
    simp [soundRemove, h]

/-- Witness for C10 at concrete databases with an absent id. -/
theorem remove_missing_id_noop_witness :
    costumeRemove 3 ⟨[], [7]⟩ = ⟨[], [7]⟩ ∧ soundRemove 0 ⟨[], []⟩ = ⟨[], []⟩ :=
  ⟨remove_missing_id_noop.1 ⟨[], [7]⟩ 3 rfl, remove_missing_id_noop.2 ⟨[], []⟩ 0 rfl⟩

/-- C8: `floodFill` returns the image with no pixel modified when the floored start
coordinate lies outside the image bounds, or when the pixel color at the start
position equals the fill color in all four channels. -/
theorem floodFill_noop (img : ImageData) (startX startY : ℚ) (fill : RGB) (tol : Nat)
    (h : (Rat.floor startX < 0 ∨ (img.width : Int) ≤ Rat.floor startX ∨
            Rat.floor startY < 0 ∨ (img.height : Int) ≤ Rat.floor startY) ∨
         colorsEqual
           (getPixel img.data
             (((Rat.floor startY).toNat * img.width + (Rat.floor startX).toNat) * 4))
           fill = true) :
    floodFill img startX startY fill tol = img := by
  unfold floodFill
  rcases h with h | h
  · rw [if_pos h]
  · by_cases hb : Rat.floor startX < 0 ∨ (img.width : Int) ≤ Rat.floor startX ∨
        Rat.floor startY < 0 ∨ (img.height : Int) ≤ Rat.floor startY
    · rw [if_pos hb]
    · rw [if_neg hb, if_pos h]

/-- Witness for C8: an out-of-bounds start on a 1×1 image, and an in-bounds start
whose pixel already has the fill color. -/
theorem floodFill_noop_witness :
    floodFill ⟨1, 1, [0, 0, 0, 0]⟩ 5 0 ⟨9, 9, 9, 255⟩ 32 = ⟨1, 1, [0, 0, 0, 0]⟩ ∧
    floodFill ⟨1, 1, [4, 5, 6, 7]⟩ 0 0 ⟨4, 5, 6, 7⟩ 32 = ⟨1, 1, [4, 5, 6, 7]⟩ :=
  ⟨floodFill_noop ⟨1, 1, [0, 0, 0, 0]⟩ 5 0 ⟨9, 9, 9, 255⟩ 32 (Or.inl (by decide)),
   floodFill_noop ⟨1, 1, [4, 5, 6, 7]⟩ 0 0 ⟨4, 5, 6, 7⟩ 32 (Or.inr (by decide))⟩

/-- C9: `calculateBoundsFromImageData` returns `none` exactly when no pixel has alpha
strictly above the threshold; otherwise it returns a rectangle of width ≥ 1 and
height ≥ 1 containing every such pixel, each of whose four edge rows/columns
contains at least one such pixel. -/
theorem calculateBounds_correct (img : ImageData) (t : Nat) :
    (calculateBoundsFromImageData img t = none ↔
      ∀ x y, x < img.width → y < img.height → alphaAt img x y ≤ t) ∧
    (∀ b, calculateBoundsFromImageData img t = some b →
      1 ≤ b.width ∧ 1 ≤ b.height ∧
      (∀ x y, x < img.width → y < img.height → t < alphaAt img x y →
        b.x ≤ (x : Int) ∧ (x : Int) ≤ b.x + b.width - 1 ∧
        b.y ≤ (y : Int) ∧ (y : Int) ≤ b.y + b.height - 1) ∧
      (∃ x y, x < img.width ∧ y < img.height ∧ t < alphaAt img x y ∧ (x : Int) = b.x) ∧
      (∃ x y, x < img.width ∧ y < img.height ∧ t < alphaAt img x y ∧
        (x : Int) = b.x + b.width - 1) ∧
      (∃ x y, x < img.width ∧ y < img.height ∧ t < alphaAt img x y ∧ (y : Int) = b.y) ∧
      (∃ x y, x < img.width ∧ y < img.height ∧ t < alphaAt img x y ∧
        (y : Int) = b.y + b.height - 1)) := by
  have hminX : (boundsScan img t).minX =
      cminFold (fun c => t < alphaAt img c.1 c.2) (fun c => (c.1 : Int)) (gridCoords img)
        ((img.width : Int)) :=
    scan_minX t img (gridCoords img) ⟨(img.width : Int), (img.height : Int), -1, -1⟩
  have hminY : (boundsScan img t).minY =
      cminFold (fun c => t < alphaAt img c.1 c.2) (fun c => (c.2 : Int)) (gridCoords img)
        ((img.height : Int)) :=
    scan_minY t img (gridCoords img) ⟨(img.width : Int), (img.height : Int), -1, -1⟩
  have hmaxX : (boundsScan img t).maxX =
      cmaxFold (fun c => t < alphaAt img c.1 c.2) (fun c => (c.1 : Int)) (gridCoords img)
        (-1 : Int) :=
    scan_maxX t img (gridCoords img) ⟨(img.width : Int), (img.height : Int), -1, -1⟩
  have hmaxY : (boundsScan img t).maxY =
      cmaxFold (fun c => t < alphaAt img c.1 c.2) (fun c => (c.2 : Int)) (gridCoords img)
        (-1 : Int) :=
    scan_maxY t img (gridCoords img) ⟨(img.width : Int), (img.height : Int), -1, -1⟩
  have hcontain : ∀ x y, x < img.width → y < img.height → t < alphaAt img x y →
      (boundsScan img t).minX ≤ (x : Int) ∧ ((x : Int)) ≤ (boundsScan img t).maxX ∧
      (boundsScan img t).minY ≤ (y : Int) ∧ ((y : Int)) ≤ (boundsScan img t).maxY := by
    intro x y hx hy hv
    have hmem : (x, y) ∈ gridCoords img := (mem_gridCoords img x y).mpr ⟨hx, hy⟩
    refine ⟨?_, ?_, ?_, ?_⟩
    · rw [hminX]
      exact cminFold_le_key _ _ (gridCoords img) (x, y) hmem hv _
    · rw [hmaxX]
      exact cmaxFold_key_le _ _ (gridCoords img) (x, y) hmem hv _
    · rw [hminY]
      exact cminFold_le_key _ _ (gridCoords img) (x, y) hmem hv _
    · rw [hmaxY]
      exact cmaxFold_key_le _ _ (gridCoords img) (x, y) hmem hv _
  constructor
  · constructor
    · intro hnone x y hx hy
      by_contra halpha
      push_neg at halpha
      have hcb := hcontain x y hx hy halpha
      unfold calculateBoundsFromImageData at hnone
      by_cases hcnd : (boundsScan img t).maxX < 0 ∨ (boundsScan img t).maxY < 0
      · have h2 := hcb.2.1
        have h4 := hcb.2.2.2
        rcases hcnd with hcnd | hcnd <;> omega
      · rw [if_neg hcnd] at hnone
        exact Option.some_ne_none _ hnone
    · intro hno
      have h1 : (boundsScan img t).maxX = -1 := by
        rw [hmaxX]
        refine cmaxFold_of_not _ _ (gridCoords img) ?_ _
        intro c hc hPc
        rcases c with ⟨x, y⟩
        have hm := (mem_gridCoords img x y).mp hc
        have hPc' : t < alphaAt img x y := hPc
        have := hno x y hm.1 hm.2
        omega
      unfold calculateBoundsFromImageData
      rw [if_pos (Or.inl (by omega))]
  · intro b hsome
    unfold calculateBoundsFromImageData at hsome
    by_cases hcnd : (boundsScan img t).maxX < 0 ∨ (boundsScan img t).maxY < 0
    · rw [if_pos hcnd] at hsome
      simp at hsome
    · rw [if_neg hcnd] at hsome
      push_neg at hcnd
      obtain ⟨hx0, hy0⟩ := hcnd
      have hb := Option.some_inj.mp hsome
      subst hb
      have hattX := cmaxFold_attain (fun c => t < alphaAt img c.1 c.2)
        (fun c => (c.1 : Int)) (gridCoords img) (-1 : Int)
      rw [← hmaxX] at hattX
      rcases hattX with h | h
      · omega
      obtain ⟨cX, hcXmem, hcXP, hcXkey⟩ := h
      rcases cX with ⟨xX, yX⟩
      have hXw := (mem_gridCoords img xX yX).mp hcXmem
      have hcXP' : t < alphaAt img xX yX := hcXP
      have hXk : ((xX : Int)) = (boundsScan img t).maxX := hcXkey
      have hattY := cmaxFold_attain (fun c => t < alphaAt img c.1 c.2)
        (fun c => (c.2 : Int)) (gridCoords img) (-1 : Int)
      rw [← hmaxY] at hattY
      rcases hattY with h | h
      · omega
      obtain ⟨cY, hcYmem, hcYP, hcYkey⟩ := h
      rcases cY with ⟨xY, yY⟩
      have hYw := (mem_gridCoords img xY yY).mp hcYmem
      have hcYP' : t < alphaAt img xY yY := hcYP
      have hYk : ((yY : Int)) = (boundsScan img t).maxY := hcYkey
      have hXb := hcontain xX yX hXw.1 hXw.2 hcXP'
      have hYb := hcontain xY yY hYw.1 hYw.2 hcYP'
      have hattmX := cminFold_attain (fun c => t < alphaAt img c.1 c.2)
        (fun c => (c.1 : Int)) (gridCoords img) ((img.width : Int))
      rw [← hminX] at hattmX
      have hmXex : ∃ x y, x < img.width ∧ y < img.height ∧ t < alphaAt img x y ∧
          ((x : Int)) = (boundsScan img t).minX := by
        rcases hattmX with h | h
        · have h1 := hXb.1
          have h2 : ((xX : Int)) < (img.width : Int) := by exact_mod_cast hXw.1
          omega
        · obtain ⟨cm, hcmMem, hcmP, hcmKey⟩ := h
          rcases cm with ⟨xm, ym⟩
          have hmw := (mem_gridCoords img xm ym).mp hcmMem
          have hcmP' : t < alphaAt img xm ym := hcmP
          have hcmKey' : ((xm : Int)) = (boundsScan img t).minX := hcmKey
          exact ⟨xm, ym, hmw.1, hmw.2, hcmP', hcmKey'⟩
      have hattmY := cminFold_attain (fun c => t < alphaAt img c.1 c.2)
        (fun c => (c.2 : Int)) (gridCoords img) ((img.height : Int))
      rw [← hminY] at hattmY
      have hmYex : ∃ x y, x < img.width ∧ y < img.height ∧ t < alphaAt img x y ∧
          ((y : Int)) = (boundsScan img t).minY := by
        rcases hattmY with h | h
        · have h1 := hYb.2.2.1
          have h2 : ((yY : Int)) < (img.height : Int) := by exact_mod_cast hYw.2
          omega
        · obtain ⟨cm, hcmMem, hcmP, hcmKey⟩ := h
          rcases cm with ⟨xm, ym⟩
          have hmw := (mem_gridCoords img xm ym).mp hcmMem
          have hcmP' : t < alphaAt img xm ym := hcmP
          have hcmKey' : ((ym : Int)) = (boundsScan img t).minY := hcmKey
          exact ⟨xm, ym, hmw.1, hmw.2, hcmP', hcmKey'⟩
      refine ⟨?_, ?_, ?_, ?_, ?_, ?_, ?_⟩
      · dsimp only
        have h1 := hXb.1
        have h2 := hXb.2.1
        omega
      · dsimp only
        have h1 := hYb.2.2.1
        have h2 := hYb.2.2.2
        omega
      · intro x y hx hy hv
        have hcb := hcontain x y hx hy hv
        dsimp only
        obtain ⟨c1, c2, c3, c4⟩ := hcb
        refine ⟨c1, by omega, c3, by omega⟩
      · obtain ⟨x, y, h1, h2, h3, h4⟩ := hmXex
        exact ⟨x, y, h1, h2, h3, h4⟩
      · obtain ⟨x, y, h1, h2, h3, h4⟩ := hmXex
        refine ⟨xX, yX, hXw.1, hXw.2, hcXP', ?_⟩
        dsimp only
        omega
      · obtain ⟨x, y, h1, h2, h3, h4⟩ := hmYex
        exact ⟨x, y, h1, h2, h3, h4⟩
      · refine ⟨xY, yY, hYw.1, hYw.2, hcYP', ?_⟩
        dsimp only
        omega

/-- Witness for C9 on a concrete 2×1 image whose left pixel is opaque: the computed
bounds are the 1×1 rectangle at the origin, and its containment facts instantiate. -/
theorem calculateBounds_correct_witness :
    (1 : Int) ≤ (CostumeBounds.mk 0 0 1 1).width ∧
    ((0 : Nat) : Int) ≤ (CostumeBounds.mk 0 0 1 1).x + (CostumeBounds.mk 0 0 1 1).width - 1 :=
  ⟨((calculateBounds_correct ⟨2, 1, [0, 0, 0, 255, 0, 0, 0, 0]⟩ 10).2
      (CostumeBounds.mk 0 0 1 1) (by decide)).1,
   (((calculateBounds_correct ⟨2, 1, [0, 0, 0, 255, 0, 0, 0, 0]⟩ 10).2
      (CostumeBounds.mk 0 0 1 1) (by decide)).2.2.1 0 0 (by decide) (by decide)
      (by decide)).2.1⟩

/-! ### Theorems for the spec-modelled generator and runtime -/

lemma runIter_state (ρ : List (String × Int)) (p : CProc) :
    ∀ (k : Nat) (st : ObjState),
      (runIter ρ p k st).1 = (fun s => (runP ρ p s).1)^[k] st := by
  intro k
  induction k with
  | zero => intro st; simp [runIter]
  | succ k ih =>
      intro st
      have h : (runIter ρ p (k + 1) st).1 = (runIter ρ p k ((runP ρ p st).1)).1 := by
        simp [runIter]
      rw [h, ih, Function.iterate_succ_apply]

/-- C1: the compiled counted `repeat(N)` with body `B` executes `B` exactly
`max(N,0)` times — the final state is the `toNat N`-fold iterate of the body's state
transformer, `toNat N = max(N,0)`, the count is evaluated exactly once at loop entry
(the trace starts with the single evaluation event), and `repeat(0)` leaves the
state unchanged with no body execution. -/
theorem repeat_executes_max_times (ρ : List (String × Int)) (n : Int) (B : SBlock)
    (st : ObjState) :
    (runP ρ (compileB (SBlock.repeatB (SExpr.num n) B SBlock.nilB)) st).1 =
      (fun s => (runP ρ (compileB B) s).1)^[n.toNat] st ∧
    ((n.toNat : Int) = max n 0) ∧
    (runP ρ (compileB (SBlock.repeatB (SExpr.num n) B SBlock.nilB)) st).2 =
      Ev.evalNum n :: (runIter ρ (compileB B) n.toNat st).2 ∧
    runP ρ (compileB (SBlock.repeatB (SExpr.num 0) B SBlock.nilB)) st =
      (st, [Ev.evalNum 0]) := by
  have hrun : runP ρ (CProc.cfor (SExpr.num n) (compileB B) CProc.done) st =
      ((runIter ρ (compileB B) n.toNat st).1,
        Ev.evalNum n :: (runIter ρ (compileB B) n.toNat st).2) := by
    simp [runP, evalExpr]
  have hrun0 : runP ρ (CProc.cfor (SExpr.num 0) (compileB B) CProc.done) st =
      (st, [Ev.evalNum 0]) := by
    simp [runP, evalExpr, runIter]
  refine ⟨?_, by omega, ?_, ?_⟩
  · simp only [compileB, hrun]
    exact runIter_state ρ (compileB B) n.toNat st
  · simp only [compileB, hrun]
  · simp only [compileB, hrun0]

/-- C2: the code generator wraps every negative numeric literal in parentheses when
inlining it, so `change-y by -20` emits `sprite.changeY((-20))` and
`set-velocity(100,-50)` emits `sprite.setVelocity(100, (-50))`. -/
theorem negative_literal_parenthesized :
    (∀ n : Int, n < 0 → emitExpr (SExpr.num n) = "(" ++ toString n ++ ")") ∧
    emitB (SBlock.changeY (SExpr.num (-20)) SBlock.nilB) = ["sprite.changeY((-20))"] ∧
    emitB (SBlock.setVelocity (SExpr.num 100) (SExpr.num (-50)) SBlock.nilB) =
      ["sprite.setVelocity(100, (-50))"] := by
  refine ⟨?_, ?_, ?_⟩
  · intro n hn
    simp [emitExpr, hn]
  · decide
  · decide

/-- Witness for C2 at the literal −20. -/
theorem negative_literal_parenthesized_witness :
    emitExpr (SExpr.num (-20)) = "(" ++ toString (-20 : Int) ++ ")" :=
  negative_literal_parenthesized.1 (-20) (by decide)

/-- C5: compilation is deterministic — two compilations of the same block tree are
equal and behave identically on every environment and state. -/
theorem compile_deterministic (b : SBlock) (h1 h2 : CProc)
    (e1 : h1 = compileB b) (e2 : h2 = compileB b) :
    h1 = h2 ∧ ∀ (ρ : List (String × Int)) (st : ObjState), runP ρ h1 st = runP ρ h2 st := by
  subst e1
  subst e2
  exact ⟨rfl, fun ρ st => rfl⟩

/-- Witness for C5 at a one-block program. -/
theorem compile_deterministic_witness :
    compileB (SBlock.showB SBlock.nilB) = compileB (SBlock.showB SBlock.nilB) :=
  (compile_deterministic (SBlock.showB SBlock.nilB) (compileB (SBlock.showB SBlock.nilB))
    (compileB (SBlock.showB SBlock.nilB)) rfl rfl).1

lemma c3_tickEngine (ρ : List (String × Int)) (prev now : List String) (st : ObjState) :
    tickEngine c3Handlers ρ prev now st = (st, []) := by
  simp [tickEngine, c3Handlers]

lemma c3_runTicks (ρ : List (String × Int)) :
    ∀ (ks : List (List String)) (prev : List String) (st : ObjState),
      runTicks c3Handlers ρ ks prev st = (st, ks.map (fun _ => [])) := by
  intro ks
  induction ks with
  | nil => intro prev st; simp [runTicks]
  | cons now ks ih =>
      intro prev st
      simp [runTicks, c3_tickEngine, ih]

lemma flatten_map_singleton {α β : Type} (l : List α) (x : β) :
    (l.map (fun _ => [x])).flatten = l.map (fun _ => x) := by
  induction l with
  | nil => rfl
  | cons a l ih => simp [ih]

/-- C3: dispatching the game-start handler go-to(100,100) → show → enable-physics
exactly once at scene load leaves the object at (100,100), visible and with physics
enabled, the three commands applied in that order; over any subsequent ticks the
game-start dispatch appears exactly once in the trace, before every tick marker. -/
theorem game_start_end_to_end (ρ : List (String × Int)) (ks : List (List String))
    (st : ObjState) :
    runEngine c3Handlers ρ ks st =
      ({ st with x := 100, y := 100, visible := true, physicsOn := true },
        EEv.gsDispatch ::
          ([Ev.evalNum 100, Ev.evalNum 100, Ev.cmd "sprite.goTo" [100, 100],
            Ev.cmd "sprite.show" [], Ev.cmd "sprite.enablePhysics" []].map EEv.e ++
            ks.map (fun _ => EEv.tickBegin))) ∧
    (runEngine c3Handlers ρ ks st).2.count EEv.gsDispatch = 1 := by
  have hload : loadEngine c3Handlers ρ st =
      ({ st with x := 100, y := 100, visible := true, physicsOn := true },
        EEv.gsDispatch ::
          [Ev.evalNum 100, Ev.evalNum 100, Ev.cmd "sprite.goTo" [100, 100],
            Ev.cmd "sprite.show" [], Ev.cmd "sprite.enablePhysics" []].map EEv.e) := by
    have hgo : ∀ s : ObjState, applyCmd "sprite.goTo" [100, 100] s =
        { s with x := 100, y := 100 } := fun s => rfl
    have hshow : ∀ s : ObjState, applyCmd "sprite.show" [] s =
        { s with visible := true } := fun s => rfl
    have hphys : ∀ s : ObjState, applyCmd "sprite.enablePhysics" [] s =
        { s with physicsOn := true } := fun s => rfl
    simp [loadEngine, c3Handlers, c3Block, compileB, runP, evalArgs, evalExpr,
      hgo, hshow, hphys]
  have hmain : runEngine c3Handlers ρ ks st =
      ({ st with x := 100, y := 100, visible := true, physicsOn := true },
        EEv.gsDispatch ::
          ([Ev.evalNum 100, Ev.evalNum 100, Ev.cmd "sprite.goTo" [100, 100],
            Ev.cmd "sprite.show" [], Ev.cmd "sprite.enablePhysics" []].map EEv.e ++
            ks.map (fun _ => EEv.tickBegin))) := by
    simp [runEngine, hload, c3_runTicks, flatten_map_singleton]
  refine ⟨hmain, ?_⟩
  rw [hmain]
  simp [List.count_cons, List.count_append, List.count_replicate]

lemma c4_tickEngine (ρ : List (String × Int)) (prev now : List String) (st : ObjState) :
    tickEngine c4Handlers ρ prev now st =
      (if "SPACE" ∈ now ∧ "SPACE" ∉ prev then
        ({ st with x := 100 }, [Ev.evalNum 100, Ev.cmd "sprite.setX" [100]])
      else (st, [])) := by
  have hsetX : ∀ s : ObjState, applyCmd "sprite.setX" [100] s = { s with x := 100 } :=
    fun s => rfl
  by_cases h : "SPACE" ∈ now ∧ "SPACE" ∉ prev
  · simp [tickEngine, c4Handlers, h, compileB, runP, evalArgs, evalExpr, hsetX]
  · simp [tickEngine, c4Handlers, h]

lemma c4_runTicks (ρ : List (String × Int)) :
    ∀ (ks : List (List String)) (prev : List String) (st : ObjState),
      runTicks c4Handlers ρ ks prev st =
        ((if c4Fires ks prev then { st with x := 100 } else st), c4Traces ks prev) := by
  intro ks
  induction ks with
  | nil => intro prev st; simp [runTicks, c4Fires, c4Traces]
  | cons now ks ih =>
      intro prev st
      by_cases h : "SPACE" ∈ now ∧ "SPACE" ∉ prev
      · have hf : c4Fires (now :: ks) prev = true := by
          simp [c4Fires, h.1, h.2]
        simp only [runTicks, c4_tickEngine, if_pos h, ih, c4Traces, if_pos h, hf]
        cases hc : c4Fires ks now <;> simp [hc]
      · have hf : c4Fires (now :: ks) prev = c4Fires ks now := by
          simp only [c4Fires]
          rcases not_and_or.mp h with h1 | h1
          · simp [h1]
          · simp [not_not.mp h1]
        simp only [runTicks, c4_tickEngine, if_neg h, ih, c4Traces, if_neg h, hf]

/-- C4: with the compiled "when key pressed SPACE: set x to 100" handler, each tick's
trace carries the handler body exactly when SPACE is down that frame and was not down
the previous frame (so it does not re-fire while held); the final x is 100 iff some
frame newly pressed SPACE, and scene load alone never fires the handler. -/
theorem key_pressed_edge_triggered (ρ : List (String × Int)) (ks : List (List String))
    (st : ObjState) :
    (runTicks c4Handlers ρ ks [] st).2 = c4Traces ks [] ∧
    (runTicks c4Handlers ρ ks [] st).1 =
      (if c4Fires ks [] then { st with x := 100 } else st) ∧
    loadEngine c4Handlers ρ st = (st, []) := by
  refine ⟨?_, ?_, ?_⟩
  · rw [c4_runTicks]
  · rw [c4_runTicks]
  · simp [loadEngine, c4Handlers]

/-! ### Theorems on the variable-store world (C7) -/

lemma lookup_append_of_none {β : Type} (j : Nat) (l l2 : List (Nat × β))
    (h : List.lookup j l = none) : List.lookup j (l ++ l2) = List.lookup j l2 := by
  induction l with
  | nil => simp
  | cons p l ih =>
      rcases p with ⟨a, b⟩
      cases hab : (j == a) with
      | true => simp [List.lookup, hab] at h
      | false =>
          simp only [List.cons_append, List.lookup, hab] at h ⊢
          exact ih h

lemma lookup_append_of_some {β : Type} (j : Nat) (l l2 : List (Nat × β)) (x : β)
    (h : List.lookup j l = some x) : List.lookup j (l ++ l2) = some x := by
  induction l with
  | nil => simp at h
  | cons p l ih =>
      rcases p with ⟨a, b⟩
      cases hab : (j == a) with
      | true => simp only [List.cons_append, List.lookup, hab] at h ⊢; exact h
      | false =>
          simp only [List.cons_append, List.lookup, hab] at h ⊢
          exact ih h

lemma lookup_append_single_ne {β : Type} (j a : Nat) (x : β) (l : List (Nat × β))
    (h : j ≠ a) : List.lookup j (l ++ [(a, x)]) = List.lookup j l := by
  cases hl : List.lookup j l with
  | some y => exact lookup_append_of_some j l _ y hl
  | none =>
      rw [lookup_append_of_none j l _ hl]
      have hb : (j == a) = false := beq_eq_false_iff_ne.mpr h
      simp [List.lookup, hb]

lemma lookup_map_upd_ne (j id : Nat) (nm : String) (v : Int)
    (l : List (Nat × List (String × Int))) (h : j ≠ id) :
    List.lookup j (List.map (fun c => if c.1 = id then (c.1, updA c.2 nm v) else c) l) =
      List.lookup j l := by
  induction l with
  | nil => simp
  | cons p l ih =>
      rcases p with ⟨a, vars⟩
      simp only [List.map_cons]
      by_cases ha : a = id
      · subst ha
        rw [show (if (a, vars).1 = a then ((a, vars).1, updA (a, vars).2 nm v)
          else (a, vars)) = (a, updA vars nm v) from by simp]
        have hb : (j == a) = false := beq_eq_false_iff_ne.mpr h
        simp [List.lookup, hb, ih]
      · rw [show (if (a, vars).1 = id then ((a, vars).1, updA (a, vars).2 nm v)
          else (a, vars)) = (a, vars) from by simp [ha]]
        cases hab : (j == a) with
        | true => simp [List.lookup, hab]
        | false => simp [List.lookup, hab, ih]

lemma lookup_map_upd_eq (id : Nat) (nm : String) (v : Int)
    (l : List (Nat × List (String × Int))) :
    List.lookup id (List.map (fun c => if c.1 = id then (c.1, updA c.2 nm v) else c) l) =
      (List.lookup id l).map (fun vs => updA vs nm v) := by
  induction l with
  | nil => simp
  | cons p l ih =>
      rcases p with ⟨a, vars⟩
      simp only [List.map_cons]
      by_cases ha : a = id
      · subst ha
        rw [show (if (a, vars).1 = a then ((a, vars).1, updA (a, vars).2 nm v)
          else (a, vars)) = (a, updA vars nm v) from by simp]
        simp [List.lookup]
      · rw [show (if (a, vars).1 = id then ((a, vars).1, updA (a, vars).2 nm v)
          else (a, vars)) = (a, vars) from by simp [ha]]
        have hb : (id == a) = false := beq_eq_false_iff_ne.mpr (fun he => ha he.symm)
        simp [List.lookup, hb, ih]

lemma lookup_updA_self (nm : String) (v : Int) :
    ∀ l : List (String × Int), (List.lookup nm l).isSome = true →
      List.lookup nm (updA l nm v) = some v := by
  intro l
  induction l with
  | nil => intro h; simp at h
  | cons p l ih =>
      rcases p with ⟨k, x⟩
      intro h
      by_cases hk : k = nm
      · subst hk
        simp [updA, List.lookup]
      · have hb : (nm == k) = false := beq_eq_false_iff_ne.mpr (fun he => hk he.symm)
        simp only [updA, if_neg hk, List.lookup, hb] at h ⊢
        exact ih h

/-- C7: spawning a clone copies the origin's instance-variable values into the
clone's scope; writing an instance variable of the clone leaves the origin's scope,
every other context's scope, the object-type defaults, and the global scope
unchanged, while the clone reads back the written value. -/
theorem clone_isolation (w : VWorld) (originId cid : Nat) (nm : String) (v : Int)
    (ovars : List (String × Int))
    (ho : List.lookup originId w.ctxs = some ovars)
    (hfresh : List.lookup cid w.ctxs = none)
    (hdef : (List.lookup nm ovars).isSome = true) :
    List.lookup cid (spawnClone w originId cid).ctxs = some ovars ∧
    List.lookup originId (writeVar (spawnClone w originId cid) cid nm v).ctxs =
      some ovars ∧
    (∀ j, j ≠ cid →
      List.lookup j (writeVar (spawnClone w originId cid) cid nm v).ctxs =
        List.lookup j w.ctxs) ∧
    (writeVar (spawnClone w originId cid) cid nm v).typeDefaults = w.typeDefaults ∧
    (writeVar (spawnClone w originId cid) cid nm v).globalScope = w.globalScope ∧
    readVar (writeVar (spawnClone w originId cid) cid nm v) cid nm = some v := by
  have hw1 : spawnClone w originId cid = { w with ctxs := w.ctxs ++ [(cid, ovars)] } := by
    simp [spawnClone, ho]
  have hlookc : List.lookup cid (w.ctxs ++ [(cid, ovars)]) = some ovars := by
    rw [lookup_append_of_none cid _ _ hfresh]
    simp [List.lookup]
  have hw2 : writeVar (spawnClone w originId cid) cid nm v =
      { w with ctxs := (List.map (fun c => if c.1 = cid then (c.1, updA c.2 nm v) else c)
          (w.ctxs ++ [(cid, ovars)])) } := by
    rw [hw1]
    simp [writeVar, hlookc, hdef]
  have hne : originId ≠ cid := by
    intro he
    rw [he, hfresh] at ho
    cases ho
  refine ⟨?_, ?_, ?_, ?_, ?_, ?_⟩
  · rw [hw1]
    exact hlookc
  · rw [hw2]
    dsimp only
    rw [lookup_map_upd_ne originId cid nm v _ hne]
    exact lookup_append_of_some originId _ _ _ ho
  · intro j hj
    rw [hw2]
    dsimp only
    rw [lookup_map_upd_ne j cid nm v _ hj]
    exact lookup_append_single_ne j cid ovars w.ctxs hj
  · rw [hw2]
  · rw [hw2]
  · rw [hw2]
    have h0 : List.lookup cid (List.map
        (fun c => if c.1 = cid then (c.1, updA c.2 nm v) else c) w.ctxs) = none := by
      rw [lookup_map_upd_eq cid nm v w.ctxs, hfresh]
      rfl
    have h1 : List.lookup cid (List.map
        (fun c => if c.1 = cid then (c.1, updA c.2 nm v) else c) w.ctxs ++
          [(cid, updA ovars nm v)]) = some (updA ovars nm v) := by
      rw [lookup_append_of_none _ _ _ h0]
      simp [List.lookup]
    have h2 : List.lookup nm (updA ovars nm v) = some v :=
      lookup_updA_self nm v ovars hdef
    simp [readVar, h1, h2]

/-- Witness for C7: origin context 1 holds x = 5; after spawning clone 2 and setting
the clone's x to 9, the clone is seeded with x = 5, the origin still holds x = 5,
and the clone reads back 9. -/
theorem clone_isolation_witness :
    List.lookup 2 (spawnClone ⟨[("x", 0)], [], [(1, [("x", 5)])]⟩ 1 2).ctxs =
      some [("x", 5)] ∧
    List.lookup 1
      (writeVar (spawnClone ⟨[("x", 0)], [], [(1, [("x", 5)])]⟩ 1 2) 2 "x" 9).ctxs =
      some [("x", 5)] ∧
    readVar (writeVar (spawnClone ⟨[("x", 0)], [], [(1, [("x", 5)])]⟩ 1 2) 2 "x" 9)
      2 "x" = some 9 :=
  ⟨(clone_isolation ⟨[("x", 0)], [], [(1, [("x", 5)])]⟩ 1 2 "x" 9 [("x", 5)]
      (by decide) (by decide) (by decide)).1,
   (clone_isolation ⟨[("x", 0)], [], [(1, [("x", 5)])]⟩ 1 2 "x" 9 [("x", 5)]
      (by decide) (by decide) (by decide)).2.1,
   (clone_isolation ⟨[("x", 0)], [], [(1, [("x", 5)])]⟩ 1 2 "x" 9 [("x", 5)]
      (by decide) (by decide) (by decide)).2.2.2.2.2⟩

/-! ### Theorems on the broadcast scheduler (C6) -/

lemma doBroadcast_eq (s : Sched) (ch : String) :
    doBroadcast s ch =
      ({ s with
          cos := s.cos ++ spawnedCos s ch,
          nextId := s.nextId +
            ((s.handlers.filter (fun h => h.ch == ch)).map BHandler.body).length },
        List.range' s.nextId
          ((s.handlers.filter (fun h => h.ch == ch)).map BHandler.body).length) := rfl

lemma spawnedCos_mem (s : Sched) (ch : String) (c : Co) (hc : c ∈ spawnedCos s ch) :
    c.st = CoSt.ready ∧ s.nextId ≤ c.cid ∧
      c.cid < s.nextId +
        ((s.handlers.filter (fun h => h.ch == ch)).map BHandler.body).length := by
  obtain ⟨p, hp, hcp⟩ := List.mem_map.mp hc
  have hp1 := (List.of_mem_zip hp).1
  rw [List.mem_range'_1] at hp1
  refine ⟨by rw [← hcp], ?_, ?_⟩
  · rw [← hcp]
    exact hp1.1
  · rw [← hcp]
    exact hp1.2

lemma spawnedCos_nodup (s : Sched) (ch : String) :
    ((spawnedCos s ch).map Co.cid).Nodup := by
  unfold spawnedCos
  rw [List.map_map]
  have hco : (Co.cid ∘ fun p : Nat × List BStmt => Co.mk p.1 p.2 CoSt.ready) = Prod.fst :=
    rfl
  rw [hco, List.map_fst_zip]
  · exact List.nodup_range' _ _
  · rw [List.length_range']

lemma runStmts_spec (cid : Nat) :
    ∀ (stmts : List BStmt) (s : Sched),
      (runStmts cid stmts s).1.handlers = s.handlers ∧
      s.nextId ≤ (runStmts cid stmts s).1.nextId ∧
      (∃ ext : List Co,
        (runStmts cid stmts s).1.cos = s.cos ++ ext ∧
        (∀ c ∈ ext, c.st = CoSt.ready ∧ s.nextId ≤ c.cid ∧
          c.cid < (runStmts cid stmts s).1.nextId) ∧
        (ext.map Co.cid).Nodup) ∧
      (∀ i ∈ batchOf (runStmts cid stmts s).2.1,
        s.nextId ≤ i ∧ i < (runStmts cid stmts s).1.nextId) := by
  intro stmts
  induction stmts with
  | nil =>
      intro s
      refine ⟨rfl, Nat.le_refl _, ⟨[], by simp [runStmts], by simp, by simp⟩, ?_⟩
      intro i hi
      simp [runStmts, batchOf] at hi
  | cons stmt rest ih =>
      intro s
      cases stmt with
      | act tag =>
          exact ih { s with log := s.log ++ [(cid, tag)] }
      | bcast ch =>
          have hrw : runStmts cid (BStmt.bcast ch :: rest) s =
              runStmts cid rest (doBroadcast s ch).1 := rfl
          have hL : (doBroadcast s ch).1.nextId = s.nextId +
              ((s.handlers.filter (fun h2 => h2.ch == ch)).map BHandler.body).length := by
            rw [doBroadcast_eq]
          have hH : (doBroadcast s ch).1.handlers = s.handlers := by
            rw [doBroadcast_eq]
          have hC : (doBroadcast s ch).1.cos = s.cos ++ spawnedCos s ch := by
            rw [doBroadcast_eq]
          obtain ⟨hh, hn, ⟨ext2, hcos2, hext2, hnd2⟩, hb⟩ := ih (doBroadcast s ch).1
          refine ⟨?_, ?_, ?_, ?_⟩
          · rw [hrw, hh, hH]
          · rw [hrw]
            omega
          · refine ⟨spawnedCos s ch ++ ext2, ?_, ?_, ?_⟩
            · rw [hrw, hcos2, hC, List.append_assoc]
            · intro c hcmem
              rcases List.mem_append.mp hcmem with hcm | hcm
              · obtain ⟨hst, hlo, hhi⟩ := spawnedCos_mem s ch c hcm
                rw [hrw]
                refine ⟨hst, hlo, ?_⟩
                omega
              · obtain ⟨hst, hlo, hhi⟩ := hext2 c hcm
                rw [hrw]
                refine ⟨hst, ?_, hhi⟩
                omega
            · rw [List.map_append]
              rw [List.nodup_append]
              refine ⟨spawnedCos_nodup s ch, hnd2, ?_⟩
              intro a ha hb2
              obtain ⟨c1, hc1, hcid1⟩ := List.mem_map.mp ha
              obtain ⟨c2, hc2, hcid2⟩ := List.mem_map.mp hb2
              obtain ⟨_, _, hhi1⟩ := spawnedCos_mem s ch c1 hc1
              obtain ⟨_, hlo2, _⟩ := hext2 c2 hc2
              omega
          · intro i hi
            rw [hrw] at hi
            obtain ⟨hlo, hhi⟩ := hb i hi
            rw [hrw]
            omega
      | bcastWait ch =>
          have hL : (doBroadcast s ch).1.nextId = s.nextId +
              ((s.handlers.filter (fun h2 => h2.ch == ch)).map BHandler.body).length := by
            rw [doBroadcast_eq]
          have hrw : runStmts cid (BStmt.bcastWait ch :: rest) s =
              ((doBroadcast s ch).1, CoSt.waitingOn (doBroadcast s ch).2, rest) := rfl
          refine ⟨?_, ?_, ?_, ?_⟩
          · rw [hrw]
            rw [show (doBroadcast s ch).1.handlers = s.handlers from by rw [doBroadcast_eq]]
          · rw [hrw]
            dsimp only
            omega
          · refine ⟨spawnedCos s ch, ?_, ?_, spawnedCos_nodup s ch⟩
            · rw [hrw]
              rw [show (doBroadcast s ch).1.cos = s.cos ++ spawnedCos s ch from by
                rw [doBroadcast_eq]]
            · intro c hcmem
              obtain ⟨hst, hlo, hhi⟩ := spawnedCos_mem s ch c hcmem
              rw [hrw]
              dsimp only
              exact ⟨hst, hlo, by omega⟩
          · intro i hi
            rw [hrw] at hi
            dsimp only at hi
            have hi2 : i ∈ (doBroadcast s ch).2 := by
              simp only [batchOf] at hi
              exact hi
            rw [doBroadcast_eq] at hi2
            rw [List.mem_range'_1] at hi2
            rw [hrw]
            dsimp only
            omega

lemma setCo_map_cid (l : List Co) (j : Nat) (st' : CoSt) (rest' : List BStmt) :
    (setCo l j st' rest').map Co.cid = l.map Co.cid := by
  unfold setCo
  rw [List.map_map]
  apply List.map_congr_left
  intro a _
  by_cases hb : a.cid = j
  · simp [hb]
  · simp [hb]

lemma wake_map_cid (s : Sched) : (wake s).cos.map Co.cid = s.cos.map Co.cid := by
  show (s.cos.map fun c => match c.st with
    | CoSt.waitingOn b => if b.all (completedIn s) then { c with st := CoSt.ready } else c
    | _ => c).map Co.cid = s.cos.map Co.cid
  rw [List.map_map]
  apply List.map_congr_left
  intro a _
  cases hst : a.st with
  | waitingOn b =>
      simp [hst]
      split <;> rfl
  | ready => simp [hst]
  | completedC => simp [hst]

lemma wfS_runCo (s : Sched) (j : Nat) (hw : wfS s) : wfS (runCo s j) := by
  obtain ⟨h1, h2, h3⟩ := hw
  unfold runCo
  split
  · exact ⟨h1, h2, h3⟩
  · rename_i c0 hf
    split
    · rename_i hready
      dsimp only
      obtain ⟨hh, hn, ⟨ext, hcos, hext, hnd⟩, hbb⟩ := runStmts_spec j c0.rest s
      refine ⟨?_, ?_, ?_⟩
      · intro c hc
        dsimp only at hc ⊢
        obtain ⟨a, ha, hca⟩ := List.mem_map.mp (show c ∈ List.map
          (fun c => if c.cid == j then Co.mk c.cid (runStmts j c0.rest s).2.2
            (runStmts j c0.rest s).2.1 else c) (runStmts j c0.rest s).1.cos from hc)
        have hacid : c.cid = a.cid := by
          cases hab : (a.cid == j) <;> simp [hab] at hca <;> rw [← hca]
        rw [hcos] at ha
        rcases List.mem_append.mp ha with hma | hma
        · have := h1 a hma
          omega
        · have := (hext a hma).2.2
          omega
      · dsimp only
        rw [setCo_map_cid, hcos, List.map_append, List.nodup_append]
        refine ⟨h2, hnd, ?_⟩
        intro x hx hy
        obtain ⟨c1, hc1, hcid1⟩ := List.mem_map.mp hx
        obtain ⟨c2, hc2, hcid2⟩ := List.mem_map.mp hy
        have hb1 := h1 c1 hc1
        have hb2 := (hext c2 hc2).2.1
        omega
      · intro c hc i hi
        dsimp only at hc ⊢
        obtain ⟨a, ha, hca⟩ := List.mem_map.mp (show c ∈ List.map
          (fun c => if c.cid == j then Co.mk c.cid (runStmts j c0.rest s).2.2
            (runStmts j c0.rest s).2.1 else c) (runStmts j c0.rest s).1.cos from hc)
        rw [hcos] at ha
        cases hab : (a.cid == j) with
        | true =>
            simp [hab] at hca
            rw [← hca] at hi
            have := hbb i hi
            omega
        | false =>
            simp [hab] at hca
            rw [← hca] at hi
            rcases List.mem_append.mp ha with hma | hma
            · have := h3 a hma i hi
              omega
            · have hrdy := (hext a hma).1
              rw [hrdy] at hi
              simp [batchOf] at hi
    · exact ⟨h1, h2, h3⟩

lemma mem_runCo (s : Sched) (j : Nat) (c : Co) (hc : c ∈ s.cos) (hj : c.cid ≠ j) :
    c ∈ (runCo s j).cos := by
  unfold runCo
  split
  · exact hc
  · rename_i c0 hf
    split
    · rename_i hready
      dsimp only
      obtain ⟨_, _, ⟨ext, hcos, _, _⟩, _⟩ := runStmts_spec j c0.rest s
      have hc1 : c ∈ (runStmts j c0.rest s).1.cos := by
        rw [hcos]
        exact List.mem_append_left _ hc
      refine List.mem_map.mpr ⟨c, hc1, ?_⟩
      have hb : (c.cid == j) = false := beq_eq_false_iff_ne.mpr hj
      simp [hb]
    · exact hc

lemma foldl_runCo_mem (ids : List Nat) :
    ∀ (s : Sched), wfS s → ∀ c ∈ s.cos, c.cid ∉ ids →
      wfS (ids.foldl runCo s) ∧ c ∈ (ids.foldl runCo s).cos := by
  induction ids with
  | nil => intro s hw c hc _; exact ⟨hw, hc⟩
  | cons j ids ih =>
      intro s hw c hc hnot
      have hj : c.cid ≠ j := fun he => hnot (by rw [he]; exact List.mem_cons_self j ids)
      have h1 := wfS_runCo s j hw
      have h2 := mem_runCo s j c hc hj
      rw [List.foldl_cons]
      exact ih (runCo s j) h1 c h2 (fun hmem => hnot (List.mem_cons_of_mem j hmem))

lemma not_mem_ready_ids (l : List Co) (hnd : (l.map Co.cid).Nodup) (c : Co) (hc : c ∈ l)
    (b : List Nat) (hst : c.st = CoSt.waitingOn b) :
    c.cid ∉ (l.filter (fun x => x.st == CoSt.ready)).map Co.cid := by
  intro hmem
  obtain ⟨c2, hc2f, hcid⟩ := List.mem_map.mp hmem
  have hc2 := List.mem_of_mem_filter hc2f
  have hready := List.of_mem_filter hc2f
  have hceq : c2 = c := List.inj_on_of_nodup_map hnd hc2 hc hcid
  rw [hceq, hst] at hready
  simp at hready

lemma mem_wake_of_waiting (s : Sched) (c : Co) (b : List Nat) (hc : c ∈ s.cos)
    (hst : c.st = CoSt.waitingOn b) (hall : ¬ b.all (completedIn s) = true) :
    c ∈ (wake s).cos := by
  have hfalse : b.all (completedIn s) = false := by
    revert hall
    cases b.all (completedIn s) <;> simp
  show c ∈ s.cos.map fun c => match c.st with
    | CoSt.waitingOn b => if b.all (completedIn s) then { c with st := CoSt.ready } else c
    | _ => c
  refine List.mem_map.mpr ⟨c, hc, ?_⟩
  simp [hst, hfalse]

lemma wfS_wake (s : Sched) (hw : wfS s) : wfS (wake s) := by
  obtain ⟨h1, h2, h3⟩ := hw
  refine ⟨?_, ?_, ?_⟩
  · intro c hc
    have hcm : c.cid ∈ (wake s).cos.map Co.cid := List.mem_map_of_mem Co.cid hc
    rw [wake_map_cid] at hcm
    obtain ⟨a, ha, hac⟩ := List.mem_map.mp hcm
    have hlt := h1 a ha
    have hnx : (wake s).nextId = s.nextId := rfl
    omega
  · rw [wake_map_cid]
    exact h2
  · intro c hc i hi
    have hc2 : c ∈ s.cos.map (fun c => match c.st with
      | CoSt.waitingOn b => if b.all (completedIn s) then { c with st := CoSt.ready } else c
      | _ => c) := hc
    obtain ⟨a, ha, hca⟩ := List.mem_map.mp hc2
    have hnx : (wake s).nextId = s.nextId := rfl
    rw [hnx]
    cases hst : a.st with
    | waitingOn b =>
        simp only [hst] at hca
        by_cases hall : b.all (completedIn s) = true
        · rw [if_pos hall] at hca
          rw [← hca] at hi
          simp [batchOf] at hi
        · rw [if_neg hall] at hca
          rw [← hca] at hi
          have := h3 a ha i hi
          omega
    | ready =>
        simp only [hst] at hca
        rw [← hca] at hi
        have := h3 a ha i hi
        omega
    | completedC =>
        simp only [hst] at hca
        rw [← hca] at hi
        have := h3 a ha i hi
        omega

lemma tick_waiting_preserved (s : Sched) (hw : wfS s) (c : Co) (hc : c ∈ s.cos)
    (b : List Nat) (hst : c.st = CoSt.waitingOn b)
    (hall : ¬ b.all (completedIn s) = true) : c ∈ (tick s).cos := by
  have hw1 := wfS_wake s hw
  have hc1 := mem_wake_of_waiting s c b hc hst hall
  have hnot := not_mem_ready_ids (wake s).cos hw1.2.1 c hc1 b hst
  exact (foldl_runCo_mem _ (wake s) hw1 c hc1 hnot).2

lemma wake_ready_of_completed (s : Sched) (c : Co) (b : List Nat) (hc : c ∈ s.cos)
    (hst : c.st = CoSt.waitingOn b) (hall : b.all (completedIn s) = true) :
    ∃ c' ∈ (wake s).cos, c'.cid = c.cid ∧ c'.st = CoSt.ready := by
  refine ⟨{ c with st := CoSt.ready }, ?_, rfl, rfl⟩
  show { c with st := CoSt.ready } ∈ s.cos.map fun c => match c.st with
    | CoSt.waitingOn b => if b.all (completedIn s) then { c with st := CoSt.ready } else c
    | _ => c
  refine List.mem_map.mpr ⟨c, hc, ?_⟩
  simp [hst, hall]

lemma fresh_not_in_batch (s : Sched) (hw : wfS s) (ch : String) (i : Nat)
    (hi : i ∈ (doBroadcast s ch).2) (c : Co) (hc : c ∈ s.cos) (b : List Nat)
    (hst : c.st = CoSt.waitingOn b) : i ∉ b := by
  intro hib
  have h1 : i < s.nextId := hw.2.2 c hc i (by rw [hst]; exact hib)
  have h2 : s.nextId ≤ i := by
    rw [doBroadcast_eq] at hi
    rw [List.mem_range'_1] at hi
    exact hi.1
  omega

/-- C6: broadcast-and-wait semantics.  (A) Executing `broadcast-and-wait(ch)`
suspends the caller on exactly the batch of coroutines spawned for the handlers
registered for `ch` at the moment of the call (one fresh id per matching handler).
(B) While some batch member is not `Completed`, a full tick leaves the suspended
caller in place with the same batch and continuation — later broadcasts during the
tick neither resume it nor extend its batch.  (C) Once every batch member is
`Completed`, the once-per-tick resume check makes the caller ready.  (D) Any further
broadcast spawns only fresh ids, none of which lies in any existing suspension
batch, so handlers already counted are never re-waited. -/
theorem broadcast_wait_semantics :
    (∀ (s : Sched) (cid : Nat) (ch : String) (rest : List BStmt),
      runStmts cid (BStmt.bcastWait ch :: rest) s =
        ((doBroadcast s ch).1, CoSt.waitingOn (doBroadcast s ch).2, rest) ∧
      (doBroadcast s ch).2 =
        List.range' s.nextId (s.handlers.filter (fun h => h.ch == ch)).length) ∧
    (∀ (s : Sched), wfS s → ∀ c ∈ s.cos, ∀ b : List Nat, c.st = CoSt.waitingOn b →
      ¬ b.all (completedIn s) = true → c ∈ (tick s).cos) ∧
    (∀ (s : Sched), ∀ c ∈ s.cos, ∀ b : List Nat, c.st = CoSt.waitingOn b →
      b.all (completedIn s) = true →
      ∃ c' ∈ (wake s).cos, c'.cid = c.cid ∧ c'.st = CoSt.ready) ∧
    (∀ (s : Sched), wfS s → ∀ (ch : String), ∀ i ∈ (doBroadcast s ch).2,
      ∀ c ∈ s.cos, ∀ b : List Nat, c.st = CoSt.waitingOn b → i ∉ b) := by
  refine ⟨?_, ?_, ?_, ?_⟩
  · intro s cid ch rest
    refine ⟨rfl, ?_⟩
    rw [doBroadcast_eq, List.length_map]
  · intro s hw c hc b hst hall
    exact tick_waiting_preserved s hw c hc b hst hall
  · intro s c hc b hst hall
    exact wake_ready_of_completed s c b hc hst hall
  · intro s hw ch i hi c hc b hst
    exact fresh_not_in_batch s hw ch i hi c hc b hst

/-- Witness for C6: a waiter on batch `[1]` survives a tick while coroutine 1 is
still ready (not completed), and is woken once coroutine 1 has completed. -/
theorem broadcast_wait_semantics_witness :
    (Co.mk 0 [] (CoSt.waitingOn [1]) ∈
      (tick (Sched.mk [BHandler.mk "go" [BStmt.act "a"]]
        [Co.mk 0 [] (CoSt.waitingOn [1]), Co.mk 1 [BStmt.act "a"] CoSt.ready] 2 [])).cos) ∧
    (∃ c' ∈ (wake (Sched.mk []
        [Co.mk 0 [] (CoSt.waitingOn [1]), Co.mk 1 [] CoSt.completedC] 2 [])).cos,
      c'.cid = (Co.mk 0 [] (CoSt.waitingOn [1])).cid ∧ c'.st = CoSt.ready) :=
  ⟨broadcast_wait_semantics.2.1
      (Sched.mk [BHandler.mk "go" [BStmt.act "a"]]
        [Co.mk 0 [] (CoSt.waitingOn [1]), Co.mk 1 [BStmt.act "a"] CoSt.ready] 2 [])
      (by decide) (Co.mk 0 [] (CoSt.waitingOn [1])) (by decide) [1] rfl (by decide),
   broadcast_wait_semantics.2.2.1
      (Sched.mk [] [Co.mk 0 [] (CoSt.waitingOn [1]), Co.mk 1 [] CoSt.completedC] 2 [])
      (Co.mk 0 [] (CoSt.waitingOn [1])) (by decide) [1] rfl (by decide)⟩

end Pocha
